import Mathlib

/-!
Verification of the utility functions in `src/utils.py` of the rdcleanr
repository.  The file shallowly embeds the Python functions `tabout`,
`read_mq_map` and `RemoveDir` as Lean definitions and proves the spec's
claims about them.

Modelling conventions:
* a line of the mappability file is a `String` (as yielded by Python's
  file iteration, possibly with a trailing newline);
* `line.strip()` is `pyStrip` on the character list, stripping Python's
  whitespace set from both ends;
* `split("\t")` is `splitTab`, a non-regex split on the tab character
  that keeps empty fields;
* Python's `int(s)` is `pyInt`, accepting surrounding whitespace, an
  optional sign and a non-empty run of decimal digits;
* the bitarray of length `n` is a `List Bool` of length `n`, and the
  slice assignment `mqmap[a:b] = True` is `setSlice`, which normalises
  the two `Int` endpoints with Python slice semantics (`pyBound`) and
  sets the positions in between to `true`;
* the two `ValueError`s the Python body can raise (tuple unpacking of a
  split that is not exactly three fields, and `int()` on a non-numeric
  field) become the two constructors of `MapError`; the spec names them
  `MalformedRecordError` and `CoordinateRangeError`.
-/

/-- The characters removed by Python's `str.strip()`. -/
def pySpace (c : Char) : Bool :=
  c == ' ' || c == '\t' || c == '\n' || c == '\r' || c == '\x0b' || c == '\x0c'

/-- Python's `s.strip()` on the character list of `s`. -/
def pyStrip (cs : List Char) : List Char :=
  ((cs.dropWhile pySpace).reverse.dropWhile pySpace).reverse

/-- Python's `s.split("\t")`: split on every tab, keeping empty fields;
the split of the empty string is `[""]`. -/
def splitTab : List Char → List (List Char)
  | [] => [[]]
  | c :: cs =>
    if c == '\t' then [] :: splitTab cs
    else
      match splitTab cs with
      | [] => [[c]]
      | f :: rest => (c :: f) :: rest

/-- `line.strip().split("\t")` from the source, as a list of field strings. -/
def lineFields (line : String) : List String :=
  (splitTab (pyStrip line.data)).map String.mk

/-- Value of a decimal digit character. -/
def digitVal (c : Char) : Nat := c.toNat - 48

/-- A non-empty all-digit character run read as a natural number. -/
def decimalNat (cs : List Char) : Option Nat :=
  if !cs.isEmpty && cs.all Char.isDigit then
    some (cs.foldl (fun n c => 10 * n + digitVal c) 0)
  else none

/-- Python 2's `int(s)` on a string: surrounding whitespace is ignored,
an optional single sign precedes a non-empty run of decimal digits;
`none` models the `ValueError` raised otherwise. -/
def pyInt (s : String) : Option Int :=
  match pyStrip s.data with
  | '-' :: cs => (decimalNat cs).map (fun n => -(n : Int))
  | '+' :: cs => (decimalNat cs).map (fun n => (n : Int))
  | cs => (decimalNat cs).map (fun n => (n : Int))

/-- Python slice-endpoint normalisation for a sequence of length `n`:
a negative index counts from the end (clamped below at `0`), a
non-negative index is clamped above at `n`. -/
def pyBound (n : Nat) (i : Int) : Nat :=
  if i < 0 then (i + n).toNat else min i.toNat n

/-- Set to `true` every position `p` of the list with `lo ≤ p < hi`,
where the head of the list is at position `i`. -/
def setRangeFrom (lo hi : Nat) : Nat → List Bool → List Bool
  | _, [] => []
  | i, b :: bs => (if lo ≤ i ∧ i < hi then true else b) :: setRangeFrom lo hi (i + 1) bs

/-- The bitarray slice assignment `bits[a:b] = True` with Python slice
semantics on the endpoints. -/
def setSlice (bits : List Bool) (a b : Int) : List Bool :=
  setRangeFrom (pyBound bits.length a) (pyBound bits.length b) 0 bits

/-- The two `ValueError`s `read_mq_map` can raise: the tuple unpacking
`chrom,start,stop = line.strip().split("\t")` fails when the split is
not exactly three fields (the spec's `MalformedRecordError`), and
`int()` fails on a non-numeric field (the spec's
`CoordinateRangeError`). -/
inductive MapError where
  | malformedRecord (line : String)
  | badInt (field : String)
  deriving DecidableEq, Repr

/-- The body of the `for line in f` loop of `read_mq_map`: split the
stripped line into exactly three fields, and when the chromosome field
equals the target chromosome set the slice `[int(start), int(stop))` of
the mask to `true`. -/
def processLine (chromosome : String) (bits : List Bool) (line : String) :
    Except MapError (List Bool) :=
  match lineFields line with
  | [chrom, start, stop] =>
    if chrom == chromosome then
      match pyInt start with
      | none => .error (.badInt start)
      | some a =>
        match pyInt stop with
        | none => .error (.badInt stop)
        | some b => .ok (setSlice bits a b)
    else .ok bits
  | _ => .error (.malformedRecord line)

/-- The `for` loop of `read_mq_map`: process the lines in file order,
propagating the first raised error. -/
def readLoop (chromosome : String) : List Bool → List String → Except MapError (List Bool)
  | bits, [] => .ok bits
  | bits, line :: rest =>
    match processLine chromosome bits line with
    | .ok bits2 => readLoop chromosome bits2 rest
    | .error e => .error e

/-- `read_mq_map(mapname, chromosome, length)` from the source, with the
opened file abstracted to its list of lines: start from
`bitarray([0] * length)` and run the loop over the lines. -/
def read_mq_map (file : List String) (chromosome : String) (length : Nat) :
    Except MapError (List Bool) :=
  readLoop chromosome (List.replicate length false) file

deriving instance DecidableEq for Except

/-- A line raises no error when processed: it splits into exactly three
fields, and when it matches the target chromosome both coordinate
fields parse as integers. -/
def lineOk (chromosome : String) (line : String) : Bool :=
  match lineFields line with
  | [chrom, start, stop] =>
    !(chrom == chromosome) || ((pyInt start).isSome && (pyInt stop).isSome)
  | _ => false

/-- A line effectively covers position `p` of a mask of length `n`: it
matches the target chromosome and `p` lies in the slice its normalised
endpoints select. -/
def effCovers (chromosome : String) (n : Nat) (p : Nat) (line : String) : Bool :=
  match lineFields line with
  | [chrom, start, stop] =>
    chrom == chromosome &&
      (match pyInt start with
       | none => false
       | some a =>
         match pyInt stop with
         | none => false
         | some b => decide (pyBound n a ≤ p) && decide (p < pyBound n b))
  | _ => false

/-- A line covers position `p` in the literal `[start, stop)` sense of
the spec: it matches the target chromosome and `start ≤ p < stop`. -/
def lineCovers (chromosome : String) (p : Nat) (line : String) : Bool :=
  match lineFields line with
  | [chrom, start, stop] =>
    chrom == chromosome &&
      (match pyInt start with
       | none => false
       | some a =>
         match pyInt stop with
         | none => false
         | some b => decide (a ≤ (p : Int)) && decide ((p : Int) < b))
  | _ => false

/-- A line is fully well-formed for a mask of length `n`: three fields,
and when it matches the target chromosome its coordinates parse and
satisfy `0 ≤ start ≤ stop ≤ n`. -/
def lineWF (chromosome : String) (n : Nat) (line : String) : Bool :=
  match lineFields line with
  | [chrom, start, stop] =>
    if chrom == chromosome then
      match pyInt start with
      | none => false
      | some a =>
        match pyInt stop with
        | none => false
        | some b => decide (0 ≤ a) && decide (a ≤ b) && decide (b ≤ (n : Int))
    else true
  | _ => false

/-- A primitive value as passed to `tabout`: Python ints, strings and
booleans (the "optional primitives" of the spec, minus the `None` case,
which `Option` supplies). -/
inductive Prim where
  | int (i : Int)
  | str (s : String)
  | boolean (b : Bool)

/-- Python's `str()` on a primitive value. -/
def pyStr : Prim → String
  | .int i => toString i
  | .str s => s
  | .boolean b => if b then "True" else "False"

/-- The body of the list comprehension in `tabout`:
`'NA' if x is None else str(x)`. -/
def pyRender (x : Option Prim) : String :=
  match x with
  | none => "NA"
  | some v => pyStr v

/-- `tabout(*args)` from the source: render every argument and join the
results with `"\t".join(...)`. -/
def tabout (args : List (Option Prim)) : String :=
  String.intercalate "\t" (args.map pyRender)

/-- The spec's rendering of one optional value: an absent value is the
literal text `NA`, a present value is its string form.  (Spec-side
definition, for comparison with `tabout`.) -/
def specRender : Option Prim → String
  | none => "NA"
  | some v => pyStr v

/-- The spec's output shape: the rendered values joined in order with a
single tab character between consecutive values.  (Spec-side
definition, for comparison with `tabout`.) -/
def specTabJoin : List (Option Prim) → String
  | [] => ""
  | [x] => specRender x
  | x :: xs => specRender x ++ "\t" ++ specTabJoin xs

/-- Result of the `os.rmdir(path)` call inside `RemoveDir`: either the
directory was removed, or an `OSError` was raised for some reason
(missing path, non-empty directory, permissions, ...). -/
inductive RmdirResult where
  | removed
  | osError (reason : String)

/-- Observable outcome of `RemoveDir`: a normal return, or termination
of the whole process with the given exit status (Python's `exit(1)`). -/
inductive RemoveDirOutcome where
  | returned
  | exited (status : Nat)
  deriving DecidableEq

/-- `RemoveDir(path)` from the source: try `os.rmdir(path)`; on
`OSError` print a message to stderr and `exit(1)`, terminating the
process. -/
def RemoveDir (r : RmdirResult) : RemoveDirOutcome :=
  match r with
  | .removed => .returned
  | .osError _ => .exited 1

theorem setRangeFrom_length (lo hi : Nat) : ∀ (i : Nat) (bs : List Bool),
    (setRangeFrom lo hi i bs).length = bs.length
  | _, [] => rfl
  | i, b :: bs => by
    simp only [setRangeFrom, List.length_cons, setRangeFrom_length lo hi (i + 1) bs]

theorem setRangeFrom_getElem? (lo hi : Nat) : ∀ (i : Nat) (bs : List Bool) (p : Nat),
    (setRangeFrom lo hi i bs)[p]? =
      (bs[p]?).map (fun v => if lo ≤ i + p ∧ i + p < hi then true else v)
  | _, [], p => by simp [setRangeFrom]
  | i, b :: bs, 0 => by simp [setRangeFrom]
  | i, b :: bs, p + 1 => by
    have h := setRangeFrom_getElem? lo hi (i + 1) bs p
    have harith : i + 1 + p = i + (p + 1) := by omega
    simp only [setRangeFrom, List.getElem?_cons_succ, h, harith]

theorem setSlice_length (bits : List Bool) (a b : Int) :
    (setSlice bits a b).length = bits.length :=
  setRangeFrom_length _ _ 0 bits

theorem setSlice_getElem? (bits : List Bool) (a b : Int) (p : Nat) :
    (setSlice bits a b)[p]? =
      (bits[p]?).map
        (fun v =>
          if pyBound bits.length a ≤ p ∧ p < pyBound bits.length b then true else v) := by
  have h := setRangeFrom_getElem? (pyBound bits.length a) (pyBound bits.length b) 0 bits p
  simpa [setSlice] using h

theorem processLine_malformed (chromosome : String) (bits : List Bool) (line : String)
    (h : (lineFields line).length ≠ 3) :
    processLine chromosome bits line = .error (.malformedRecord line) := by
  rcases hl : lineFields line with _ | ⟨c, _ | ⟨s, _ | ⟨t, _ | ⟨u, us⟩⟩⟩⟩ <;>
    simp_all [processLine]

theorem processLine_skip (chromosome : String) (bits : List Bool) (line : String)
    (c s t : String) (hl : lineFields line = [c, s, t]) (hc : c ≠ chromosome) :
    processLine chromosome bits line = .ok bits := by
  simp [processLine, hl, hc]

theorem processLine_set (chromosome : String) (bits : List Bool) (line : String)
    (s t : String) (a b : Int) (hl : lineFields line = [chromosome, s, t])
    (hs : pyInt s = some a) (ht : pyInt t = some b) :
    processLine chromosome bits line = .ok (setSlice bits a b) := by
  simp [processLine, hl, hs, ht]

theorem processLine_badInt (chromosome : String) (bits : List Bool) (line : String)
    (s t : String) (hl : lineFields line = [chromosome, s, t])
    (h : pyInt s = none ∨ pyInt t = none) :
    (processLine chromosome bits line = .error (.badInt s)) ∨
      (processLine chromosome bits line = .error (.badInt t)) := by
  rcases h with h | h
  · left; simp [processLine, hl, h]
  · cases hs : pyInt s with
    | none => left; simp [processLine, hl, hs]
    | some a => right; simp [processLine, hl, hs, h]

theorem readLoop_char (chromosome : String) (n : Nat) :
    ∀ (file : List String) (bits : List Bool), bits.length = n →
    (∀ l ∈ file, lineOk chromosome l = true) →
    ∃ mask, readLoop chromosome bits file = .ok mask ∧ mask.length = n ∧
      ∀ p : Nat,
        mask[p]? = (bits[p]?).map (fun v => v || file.any (effCovers chromosome n p)) := by
  intro file
  induction file with
  | nil =>
    intro bits hlen _
    refine ⟨bits, rfl, hlen, ?_⟩
    intro p
    cases bits[p]? <;> simp
  | cons line rest ih =>
    intro bits hlen hok
    have hline := hok line (List.mem_cons_self line rest)
    have hrest : ∀ l ∈ rest, lineOk chromosome l = true := fun l hl =>
      hok l (List.mem_cons_of_mem line hl)
    rcases hfl : lineFields line with _ | ⟨c, _ | ⟨s, _ | ⟨t, _ | ⟨u, us⟩⟩⟩⟩
    · simp [lineOk, hfl] at hline
    · simp [lineOk, hfl] at hline
    · simp [lineOk, hfl] at hline
    rotate_left 1
    · simp [lineOk, hfl] at hline
    have hline2 : (!(c == chromosome) || ((pyInt s).isSome && (pyInt t).isSome)) = true := by
      rw [lineOk, hfl] at hline; exact hline
    by_cases hc : c = chromosome
    · subst hc
      have hsome : ((pyInt s).isSome && (pyInt t).isSome) = true := by
        simpa using hline2
      simp only [Bool.and_eq_true, Option.isSome_iff_exists] at hsome
      obtain ⟨⟨a, hs⟩, b, ht⟩ := hsome
      have hstep := processLine_set c bits line s t a b hfl hs ht
      obtain ⟨mask, hloop, hmlen, hget⟩ :=
        ih (setSlice bits a b) (by rw [setSlice_length]; exact hlen) hrest
      refine ⟨mask, ?_, hmlen, ?_⟩
      · rw [readLoop, hstep]; exact hloop
      · intro p
        rw [hget p, setSlice_getElem?]
        cases hbp : bits[p]? with
        | none => simp
        | some v =>
          have hcov : effCovers c n p line =
              (decide (pyBound n a ≤ p) && decide (p < pyBound n b)) := by
            simp [effCovers, hfl, hs, ht]
          simp only [Option.map_some, List.any_cons, hcov, hlen]
          by_cases h1 : pyBound n a ≤ p
          · by_cases h2 : p < pyBound n b
            · simp [h1, h2]
            · simp [h1, h2]
          · simp [h1]
    · have hcne : c ≠ chromosome := hc
      have hstep := processLine_skip chromosome bits line c s t hfl hcne
      obtain ⟨mask, hloop, hmlen, hget⟩ := ih bits hlen hrest
      refine ⟨mask, ?_, hmlen, ?_⟩
      · rw [readLoop, hstep]; exact hloop
      · intro p
        rw [hget p]
        have hcov : effCovers chromosome n p line = false := by
          rw [effCovers, hfl]
          simp [hc]
        simp [hcov]

theorem setRangeFrom_noop (lo hi : Nat) (h : hi ≤ lo) : ∀ (i : Nat) (bs : List Bool),
    setRangeFrom lo hi i bs = bs
  | _, [] => rfl
  | i, b :: bs => by
    rw [setRangeFrom, if_neg (by omega), setRangeFrom_noop lo hi h (i + 1) bs]

theorem pyBound_clamp (n : Nat) (b : Int) (h : (n : Int) ≤ b) : pyBound n b = n := by
  unfold pyBound
  rw [if_neg (by omega), Nat.min_eq_right (by omega)]

theorem pyBound_neg (n : Nat) (a : Int) (h : a < 0) : pyBound n a = (a + n).toNat := by
  unfold pyBound
  rw [if_pos h]

theorem pyBound_of_nonneg (n : Nat) (a : Int) (h0 : 0 ≤ a) (hn : a ≤ (n : Int)) :
    pyBound n a = a.toNat := by
  unfold pyBound
  rw [if_neg (by omega), Nat.min_eq_left (by omega)]

theorem setSlice_noop (bits : List Bool) (a b : Int)
    (h : pyBound bits.length b ≤ pyBound bits.length a) : setSlice bits a b = bits :=
  setRangeFrom_noop _ _ h 0 bits

theorem processLine_badInt_start (chromosome : String) (bits : List Bool) (line : String)
    (s t : String) (hl : lineFields line = [chromosome, s, t]) (hs : pyInt s = none) :
    processLine chromosome bits line = .error (.badInt s) := by
  simp [processLine, hl, hs]

theorem processLine_badInt_stop (chromosome : String) (bits : List Bool) (line : String)
    (s t : String) (a : Int) (hl : lineFields line = [chromosome, s, t])
    (hs : pyInt s = some a) (ht : pyInt t = none) :
    processLine chromosome bits line = .error (.badInt t) := by
  simp [processLine, hl, hs, ht]

theorem processLine_length (chromosome : String) (bits : List Bool) (line : String)
    (bits2 : List Bool) (h : processLine chromosome bits line = .ok bits2) :
    bits2.length = bits.length := by
  rcases hfl : lineFields line with _ | ⟨c, _ | ⟨s, _ | ⟨t, _ | ⟨u, us⟩⟩⟩⟩
  · simp [processLine, hfl] at h
  · simp [processLine, hfl] at h
  · simp [processLine, hfl] at h
  · by_cases hc : c = chromosome
    · subst hc
      cases hs : pyInt s with
      | none => rw [processLine_badInt_start c bits line s t hfl hs] at h; simp at h
      | some a =>
        cases ht : pyInt t with
        | none => rw [processLine_badInt_stop c bits line s t a hfl hs ht] at h; simp at h
        | some b =>
          rw [processLine_set c bits line s t a b hfl hs ht] at h
          injection h with h2
          rw [← h2, setSlice_length]
    · rw [processLine_skip chromosome bits line c s t hfl hc] at h
      injection h with h2
      rw [← h2]
  · simp [processLine, hfl] at h

theorem processLine_ok_of_lineOk (chromosome : String) (bits : List Bool) (line : String)
    (h : lineOk chromosome line = true) :
    ∃ bits2, processLine chromosome bits line = .ok bits2 := by
  rcases hfl : lineFields line with _ | ⟨c, _ | ⟨s, _ | ⟨t, _ | ⟨u, us⟩⟩⟩⟩
  · simp [lineOk, hfl] at h
  · simp [lineOk, hfl] at h
  · simp [lineOk, hfl] at h
  · by_cases hc : c = chromosome
    · subst hc
      have h2 : ((pyInt s).isSome && (pyInt t).isSome) = true := by
        have h3 : (!(c == c) || ((pyInt s).isSome && (pyInt t).isSome)) = true := by
          rw [lineOk, hfl] at h; exact h
        simpa using h3
      simp only [Bool.and_eq_true, Option.isSome_iff_exists] at h2
      obtain ⟨⟨a, hs⟩, b, ht⟩ := h2
      exact ⟨setSlice bits a b, processLine_set c bits line s t a b hfl hs ht⟩
    · exact ⟨bits, processLine_skip chromosome bits line c s t hfl hc⟩
  · simp [lineOk, hfl] at h

theorem readLoop_length (chromosome : String) : ∀ (file : List String) (bits mask : List Bool),
    readLoop chromosome bits file = .ok mask → mask.length = bits.length
  | [], bits, mask, h => by injection h with h2; rw [← h2]
  | line :: rest, bits, mask, h => by
    rw [readLoop] at h
    cases hres : processLine chromosome bits line with
    | error e => rw [hres] at h; simp at h
    | ok bits2 =>
      rw [hres] at h
      rw [readLoop_length chromosome rest bits2 mask h,
        processLine_length chromosome bits line bits2 hres]

theorem readLoop_append (chromosome : String) : ∀ (pre rest : List String) (bits : List Bool),
    readLoop chromosome bits (pre ++ rest) =
      (readLoop chromosome bits pre).bind (fun bits2 => readLoop chromosome bits2 rest)
  | [], rest, bits => rfl
  | line :: pre, rest, bits => by
    rw [List.cons_append, readLoop, readLoop]
    cases processLine chromosome bits line with
    | error e => rfl
    | ok bits2 => exact readLoop_append chromosome pre rest bits2

theorem readLoop_not_ok_of_malformed (chromosome : String) :
    ∀ (file : List String) (bits : List Bool) (line : String), line ∈ file →
      (lineFields line).length ≠ 3 → ∀ mask, readLoop chromosome bits file ≠ .ok mask
  | [], _, _, hmem, _, _ => by cases hmem
  | l :: rest, bits, line, hmem, hlen, mask => by
    intro hok
    rw [readLoop] at hok
    by_cases hl3 : (lineFields l).length = 3
    · have hmem2 : line ∈ rest := by
        cases hmem with
        | head => exact absurd hl3 hlen
        | tail _ h => exact h
      cases hres : processLine chromosome bits l with
      | error e => rw [hres] at hok; simp at hok
      | ok bits2 =>
        rw [hres] at hok
        exact readLoop_not_ok_of_malformed chromosome rest bits2 line hmem2 hlen mask hok
    · rw [processLine_malformed chromosome bits l hl3] at hok
      simp at hok

theorem readLoop_malformed_first (chromosome : String) :
    ∀ (file : List String) (bits : List Bool),
      (∀ l ∈ file, lineOk chromosome l = true ∨ (lineFields l).length ≠ 3) →
      (∃ line ∈ file, (lineFields line).length ≠ 3) →
      ∃ bad, bad ∈ file ∧ (lineFields bad).length ≠ 3 ∧
        readLoop chromosome bits file = .error (.malformedRecord bad)
  | [], _, _, hex => by
    rcases hex with ⟨l, hl, _⟩
    cases hl
  | l :: rest, bits, hok, hex => by
    by_cases hl3 : (lineFields l).length = 3
    · have hlok : lineOk chromosome l = true := by
        rcases hok l (List.mem_cons_self l rest) with h | h
        · exact h
        · exact absurd hl3 h
      obtain ⟨bits2, hres⟩ := processLine_ok_of_lineOk chromosome bits l hlok
      have hex2 : ∃ line ∈ rest, (lineFields line).length ≠ 3 := by
        rcases hex with ⟨line, hmem, hlen⟩
        cases hmem with
        | head => exact absurd hl3 hlen
        | tail _ h => exact ⟨line, h, hlen⟩
      have hok2 : ∀ x ∈ rest, lineOk chromosome x = true ∨ (lineFields x).length ≠ 3 :=
        fun x hx => hok x (List.mem_cons_of_mem l hx)
      obtain ⟨bad, hbmem, hblen, hrun⟩ :=
        readLoop_malformed_first chromosome rest bits2 hok2 hex2
      refine ⟨bad, List.mem_cons_of_mem l hbmem, hblen, ?_⟩
      rw [readLoop, hres]
      exact hrun
    · refine ⟨l, List.mem_cons_self l rest, hl3, ?_⟩
      rw [readLoop, processLine_malformed chromosome bits l hl3]

theorem readLoop_badInt (chromosome : String) :
    ∀ (file : List String) (bits : List Bool),
      (∀ l ∈ file, (lineFields l).length = 3) →
      ¬(∀ l ∈ file, lineOk chromosome l = true) →
      ∃ f, readLoop chromosome bits file = .error (.badInt f)
  | [], _, _, hne => absurd (by intro l hl; cases hl) hne
  | l :: rest, bits, h3, hne => by
    by_cases hlok : lineOk chromosome l = true
    · obtain ⟨bits2, hres⟩ := processLine_ok_of_lineOk chromosome bits l hlok
      have hne2 : ¬(∀ x ∈ rest, lineOk chromosome x = true) := by
        intro hall
        refine hne (fun x hx => ?_)
        cases hx with
        | head => exact hlok
        | tail _ h => exact hall x h
      obtain ⟨f, hrun⟩ := readLoop_badInt chromosome rest bits2
        (fun x hx => h3 x (List.mem_cons_of_mem l hx)) hne2
      refine ⟨f, ?_⟩
      rw [readLoop, hres]
      exact hrun
    · have h3l := h3 l (List.mem_cons_self l rest)
      rcases hfl : lineFields l with _ | ⟨c, _ | ⟨s, _ | ⟨t, _ | ⟨u, us⟩⟩⟩⟩
      · rw [hfl] at h3l; simp at h3l
      · rw [hfl] at h3l; simp at h3l
      · rw [hfl] at h3l; simp at h3l
      · have hc : c = chromosome := by
          by_contra hcc
          refine hlok ?_
          rw [lineOk, hfl]
          simp [hcc]
        subst hc
        have hnotboth : ¬(((pyInt s).isSome && (pyInt t).isSome) = true) := by
          intro hh
          refine hlok ?_
          rw [lineOk, hfl]
          simp [hh]
        cases hs : pyInt s with
        | none =>
          refine ⟨s, ?_⟩
          rw [readLoop, processLine_badInt_start c bits l s t hfl hs]
        | some a =>
          cases ht : pyInt t with
          | none =>
            refine ⟨t, ?_⟩
            rw [readLoop, processLine_badInt_stop c bits l s t a hfl hs ht]
          | some b => exact absurd (by simp [hs, ht]) hnotboth
      · rw [hfl] at h3l; simp at h3l

theorem lineOk_of_lineWF (chromosome : String) (n : Nat) (line : String)
    (h : lineWF chromosome n line = true) : lineOk chromosome line = true := by
  rcases hfl : lineFields line with _ | ⟨c, _ | ⟨s, _ | ⟨t, _ | ⟨u, us⟩⟩⟩⟩
  · simp [lineWF, hfl] at h
  · simp [lineWF, hfl] at h
  · simp [lineWF, hfl] at h
  · rw [lineOk, hfl]
    by_cases hc : (c == chromosome) = true
    · simp only [lineWF, hfl, hc, if_true] at h
      cases hs : pyInt s with
      | none => rw [hs] at h; simp at h
      | some a =>
        cases ht : pyInt t with
        | none => rw [hs, ht] at h; simp at h
        | some b => simp [hs, ht]
    · simp [hc]
  · simp [lineWF, hfl] at h

theorem effCovers_eq_lineCovers (chromosome : String) (n : Nat) (line : String)
    (h : lineWF chromosome n line = true) (p : Nat) :
    effCovers chromosome n p line = lineCovers chromosome p line := by
  rcases hfl : lineFields line with _ | ⟨c, _ | ⟨s, _ | ⟨t, _ | ⟨u, us⟩⟩⟩⟩
  · simp [effCovers, lineCovers, hfl]
  · simp [effCovers, lineCovers, hfl]
  · simp [effCovers, lineCovers, hfl]
  · by_cases hc : (c == chromosome) = true
    · simp only [lineWF, hfl, hc, if_true] at h
      cases hs : pyInt s with
      | none => rw [hs] at h; simp at h
      | some a =>
        cases ht : pyInt t with
        | none => rw [hs, ht] at h; simp at h
        | some b =>
          rw [hs, ht] at h
          have hbounds : (0 ≤ a ∧ a ≤ b) ∧ b ≤ (n : Int) := by
            simpa [Bool.and_eq_true, decide_eq_true_eq] using h
          obtain ⟨⟨h0, hab⟩, hbn⟩ := hbounds
          rw [effCovers, lineCovers, hfl]
          simp only [hs, ht]
          rw [pyBound_of_nonneg n a h0 (le_trans hab hbn),
            pyBound_of_nonneg n b (le_trans h0 hab) hbn]
          rw [decide_eq_decide.mpr (show a.toNat ≤ p ↔ a ≤ (p : Int) by omega),
            decide_eq_decide.mpr (show p < b.toNat ↔ (p : Int) < b by omega)]
    · rw [effCovers, lineCovers, hfl]
      simp [hc]
  · simp [effCovers, lineCovers, hfl]

theorem any_eq_of_perm {α : Type} {l1 l2 : List α} (h : l1.Perm l2) (f : α → Bool) :
    l1.any f = l2.any f := by
  cases h1 : l1.any f with
  | true =>
    rcases List.any_eq_true.mp h1 with ⟨x, hx, hfx⟩
    exact (List.any_eq_true.mpr ⟨x, h.mem_iff.mp hx, hfx⟩).symm
  | false =>
    cases h2 : l2.any f with
    | false => rfl
    | true =>
      rcases List.any_eq_true.mp h2 with ⟨x, hx, hfx⟩
      rw [← h1]
      exact List.any_eq_true.mpr ⟨x, h.mem_iff.mpr hx, hfx⟩

theorem any_congr_mem {α : Type} : ∀ (l : List α) (f g : α → Bool),
    (∀ x ∈ l, f x = g x) → l.any f = l.any g
  | [], _, _, _ => rfl
  | x :: xs, f, g, h => by
    rw [List.any_cons, List.any_cons, h x (List.mem_cons_self x xs),
      any_congr_mem xs f g (fun y hy => h y (List.mem_cons_of_mem x hy))]

theorem render_eq (x : Option Prim) : pyRender x = specRender x := by
  cases x <;> rfl

theorem intercalate_go_left (s : String) : ∀ (l : List String) (acc1 acc2 : String),
    String.intercalate.go (acc1 ++ acc2) s l = acc1 ++ String.intercalate.go acc2 s l
  | [], acc1, acc2 => rfl
  | a :: l, acc1, acc2 => by
    show String.intercalate.go (acc1 ++ acc2 ++ s ++ a) s l =
      acc1 ++ String.intercalate.go (acc2 ++ s ++ a) s l
    rw [String.append_assoc acc1 acc2 s, String.append_assoc acc1 (acc2 ++ s) a]
    exact intercalate_go_left s l acc1 (acc2 ++ s ++ a)

theorem intercalate_cons_cons (s a b : String) (l : List String) :
    String.intercalate s (a :: b :: l) = a ++ s ++ String.intercalate s (b :: l) := by
  show String.intercalate.go (a ++ s ++ b) s l = a ++ s ++ String.intercalate.go b s l
  exact intercalate_go_left s l (a ++ s) b

/-- C1: for every well-formed input file, target chromosome and length,
`read_mq_map` succeeds with a mask of size `length` in which a position
`p` is true if and only if `p` lies in `[start, stop)` of at least one
line whose chromosome field string-equals the target chromosome, and
every other position is false; overlapping matching ranges are
idempotent (union semantics). -/
theorem read_mq_map_union_semantics (file : List String) (chromosome : String) (n : Nat)
    (hwf : ∀ l ∈ file, lineWF chromosome n l = true) :
    ∃ mask, read_mq_map file chromosome n = .ok mask ∧ mask.length = n ∧
      ∀ p, p < n →
        (mask[p]? = some true ↔ ∃ l ∈ file, lineCovers chromosome p l = true) ∧
        (¬(∃ l ∈ file, lineCovers chromosome p l = true) → mask[p]? = some false) := by
  obtain ⟨mask, hrun, hlen, hget⟩ := readLoop_char chromosome n file (List.replicate n false)
    (by simp) (fun l hl => lineOk_of_lineWF chromosome n l (hwf l hl))
  refine ⟨mask, hrun, hlen, ?_⟩
  intro p hp
  have hrep : (List.replicate n false)[p]? = some false := List.getElem?_replicate_of_lt hp
  have hany := any_congr_mem file (effCovers chromosome n p) (lineCovers chromosome p)
    (fun l hl => effCovers_eq_lineCovers chromosome n l (hwf l hl) p)
  have hm : mask[p]? = some (file.any (lineCovers chromosome p)) := by
    rw [hget p, hrep]
    simp [hany]
  refine ⟨⟨fun h => ?_, fun h => ?_⟩, fun h => ?_⟩
  · rw [hm] at h
    injection h with h2
    exact List.any_eq_true.mp h2
  · rw [hm, List.any_eq_true.mpr h]
  · rw [hm]
    have hfalse : file.any (lineCovers chromosome p) = false := by
      cases hh : file.any (lineCovers chromosome p) with
      | false => rfl
      | true => exact absurd (List.any_eq_true.mp hh) h
    rw [hfalse]

/-- Witness for C1: the spec's own three-line example. -/
theorem read_mq_map_union_semantics_witness :
    ∃ mask, read_mq_map ["chr1\t0\t3", "chr2\t5\t8", "chr1\t5\t7"] "chr1" 10 = .ok mask ∧
      mask.length = 10 ∧
      ∀ p, p < 10 →
        (mask[p]? = some true ↔
          ∃ l ∈ ["chr1\t0\t3", "chr2\t5\t8", "chr1\t5\t7"], lineCovers "chr1" p l = true) ∧
        (¬(∃ l ∈ ["chr1\t0\t3", "chr2\t5\t8", "chr1\t5\t7"], lineCovers "chr1" p l = true) →
          mask[p]? = some false) :=
  read_mq_map_union_semantics ["chr1\t0\t3", "chr2\t5\t8", "chr1\t5\t7"] "chr1" 10 (by decide)

/-- C2: a successfully returned mask always has exactly `length`
positions; the freshly constructed mask `bitarray([0] * length)` has
`length` positions, all false; and the range-set operation preserves
the length. -/
theorem read_mq_map_mask_length :
    (∀ (file : List String) (chromosome : String) (n : Nat) (mask : List Bool),
        read_mq_map file chromosome n = .ok mask → mask.length = n) ∧
    (∀ n : Nat, (List.replicate n false).length = n ∧
        ∀ p, p < n → (List.replicate n false)[p]? = some false) ∧
    (∀ (bits : List Bool) (a b : Int), (setSlice bits a b).length = bits.length) := by
  refine ⟨?_, ?_, setSlice_length⟩
  · intro file chromosome n mask h
    have h2 := readLoop_length chromosome file (List.replicate n false) mask h
    simpa using h2
  · intro n
    exact ⟨by simp, fun p hp => List.getElem?_replicate_of_lt hp⟩

/-- Witness for C2 at a concrete input. -/
theorem read_mq_map_mask_length_witness :
    ([true, true, true, false, false] : List Bool).length = 5 ∧
      (List.replicate 5 false)[2]? = some false :=
  ⟨read_mq_map_mask_length.1 ["chr1\t0\t3"] "chr1" 5 [true, true, true, false, false] (by decide),
   (read_mq_map_mask_length.2.1 5).2 2 (by decide)⟩

/-- C3: permuting the lines of an input file on which no error is
raised does not change the result of `read_mq_map`. -/
theorem read_mq_map_perm_invariant (file file2 : List String) (chromosome : String) (n : Nat)
    (hperm : file.Perm file2) (hok : ∀ l ∈ file, lineOk chromosome l = true) :
    read_mq_map file chromosome n = read_mq_map file2 chromosome n := by
  have hok2 : ∀ l ∈ file2, lineOk chromosome l = true := fun l hl =>
    hok l (hperm.mem_iff.mpr hl)
  obtain ⟨m1, h1, hl1, hg1⟩ :=
    readLoop_char chromosome n file (List.replicate n false) (by simp) hok
  obtain ⟨m2, h2, hl2, hg2⟩ :=
    readLoop_char chromosome n file2 (List.replicate n false) (by simp) hok2
  have hm : m1 = m2 := by
    apply List.ext_getElem?
    intro p
    rw [hg1 p, hg2 p, any_eq_of_perm hperm (effCovers chromosome n p)]
  rw [read_mq_map, read_mq_map, h1, h2, hm]

/-- Witness for C3 at a concrete permutation. -/
theorem read_mq_map_perm_invariant_witness :
    read_mq_map ["chr1\t0\t2", "chr2\t1\t3", "chr1\t4\t5"] "chr1" 6 =
      read_mq_map ["chr1\t4\t5", "chr1\t0\t2", "chr2\t1\t3"] "chr1" 6 :=
  read_mq_map_perm_invariant ["chr1\t0\t2", "chr2\t1\t3", "chr1\t4\t5"]
    ["chr1\t4\t5", "chr1\t0\t2", "chr2\t1\t3"] "chr1" 6 (by decide) (by decide)

/-- C4: a line that does not split into exactly three tab-separated
fields makes `read_mq_map` fail — it never returns a usable mask — and
(when field-count violations are the only malformation present, lines
being split before the chromosome check) the reported error is the
malformed-record error, for matching and non-matching lines alike. -/
theorem read_mq_map_malformed_aborts :
    (∀ (file : List String) (chromosome : String) (n : Nat) (line : String),
        line ∈ file → (lineFields line).length ≠ 3 →
        ∀ mask, read_mq_map file chromosome n ≠ .ok mask) ∧
    (∀ (file : List String) (chromosome : String) (n : Nat),
        (∀ l ∈ file, lineOk chromosome l = true ∨ (lineFields l).length ≠ 3) →
        (∃ line ∈ file, (lineFields line).length ≠ 3) →
        ∃ bad, bad ∈ file ∧ (lineFields bad).length ≠ 3 ∧
          read_mq_map file chromosome n = .error (.malformedRecord bad)) := by
  constructor
  · intro file chromosome n line hmem hlen mask
    exact readLoop_not_ok_of_malformed chromosome file (List.replicate n false) line hmem hlen mask
  · intro file chromosome n hok hex
    exact readLoop_malformed_first chromosome file (List.replicate n false) hok hex

/-- Witness for C4: the spec's two-field matching line aborts the load. -/
theorem read_mq_map_malformed_aborts_witness :
    (read_mq_map ["chr2\t0\t1", "chr1\t10"] "chr1" 5 ≠
      .ok [false, false, false, false, false]) ∧
    (∃ bad, bad ∈ ["chr2\t0\t1", "chr1\t10"] ∧ (lineFields bad).length ≠ 3 ∧
      read_mq_map ["chr2\t0\t1", "chr1\t10"] "chr1" 5 = .error (.malformedRecord bad)) :=
  ⟨read_mq_map_malformed_aborts.1 ["chr2\t0\t1", "chr1\t10"] "chr1" 5 "chr1\t10"
      (by decide) (by decide) [false, false, false, false, false],
   read_mq_map_malformed_aborts.2 ["chr2\t0\t1", "chr1\t10"] "chr1" 5 (by decide)
      ⟨"chr1\t10", by decide, by decide⟩⟩

/-- Counterexample to C5 as stated: the matching line `chr1\t5\t100`
has `stop = 100 > length = 10`, yet `read_mq_map` does not abort — it
succeeds, silently clamping the slice to the mask length. -/
theorem read_mq_map_out_of_range_accepted :
    read_mq_map ["chr1\t5\t100"] "chr1" 10 =
      .ok [false, false, false, false, false, true, true, true, true, true] := by decide

/-- C5 as amended: when every line splits into three fields, the only
coordinate condition that aborts the load is a `start`/`stop` field
that is not parseable as an integer (reported as the int-parse
`ValueError`); when all matching lines parse, the load always succeeds,
regardless of whether `0 ≤ start ≤ stop ≤ length` holds. -/
theorem read_mq_map_badInt_only (file : List String) (chromosome : String) (n : Nat)
    (h3 : ∀ l ∈ file, (lineFields l).length = 3) :
    ((∃ line s t, line ∈ file ∧ lineFields line = [chromosome, s, t] ∧
        (pyInt s = none ∨ pyInt t = none)) →
      ∃ f, read_mq_map file chromosome n = .error (.badInt f)) ∧
    ((∀ l ∈ file, lineOk chromosome l = true) →
      ∃ mask, read_mq_map file chromosome n = .ok mask) := by
  constructor
  · rintro ⟨line, s, t, hmem, hfl, hbad⟩
    apply readLoop_badInt chromosome file (List.replicate n false) h3
    intro hall
    have hl := hall line hmem
    rw [lineOk, hfl] at hl
    have hl2 : (!(chromosome == chromosome) || ((pyInt s).isSome && (pyInt t).isSome)) = true := hl
    rcases hbad with hb | hb
    · rw [hb] at hl2; simp at hl2
    · rw [hb] at hl2; simp at hl2
  · intro hok
    obtain ⟨mask, h1, _, _⟩ :=
      readLoop_char chromosome n file (List.replicate n false) (by simp) hok
    exact ⟨mask, h1⟩

/-- Witness for the amended C5: a matching line with a non-numeric
`stop` field aborts the load with the int-parse error. -/
theorem read_mq_map_badInt_only_witness :
    ∃ f, read_mq_map ["chr1\t5\tx"] "chr1" 10 = .error (.badInt f) :=
  (read_mq_map_badInt_only ["chr1\t5\tx"] "chr1" 10 (by decide)).1
    ⟨"chr1\t5\tx", "5", "x", by decide, by decide, Or.inr (by decide)⟩

/-- C6: a three-field line whose chromosome field differs from the
target never influences the returned mask — deleting it from the file
(wherever it stands) leaves the result unchanged — with no numeric
validation of its `start`/`stop` fields. -/
theorem read_mq_map_ignores_nonmatching (pre post : List String) (line : String)
    (chromosome : String) (n : Nat) (c s t : String)
    (hfl : lineFields line = [c, s, t]) (hc : c ≠ chromosome) :
    read_mq_map (pre ++ line :: post) chromosome n = read_mq_map (pre ++ post) chromosome n := by
  unfold read_mq_map
  rw [readLoop_append, readLoop_append]
  cases readLoop chromosome (List.replicate n false) pre with
  | error e => rfl
  | ok bits2 =>
    show readLoop chromosome bits2 (line :: post) = readLoop chromosome bits2 post
    rw [readLoop, processLine_skip chromosome bits2 line c s t hfl hc]

/-- Witness for C6: a non-matching line with unparseable coordinates is
skipped without influencing the mask. -/
theorem read_mq_map_ignores_nonmatching_witness :
    read_mq_map ["chr1\t0\t2", "chr2\tfoo\tbar", "chr1\t4\t5"] "chr1" 6 =
      read_mq_map ["chr1\t0\t2", "chr1\t4\t5"] "chr1" 6 :=
  read_mq_map_ignores_nonmatching ["chr1\t0\t2"] ["chr1\t4\t5"] "chr2\tfoo\tbar" "chr1" 6
    "chr2" "foo" "bar" (by decide) (by decide)

/-- C7: a matching line with integer-parseable coordinates never
raises — its effect is the slice assignment — and the slice follows
Python semantics: a stop beyond the length is clamped to the length, a
negative start counts from the end of the mask, and the assignment is a
no-op whenever the effective start is at or past the effective stop. -/
theorem processLine_slice_semantics :
    (∀ (bits : List Bool) (chromosome line s t : String) (a b : Int),
        lineFields line = [chromosome, s, t] → pyInt s = some a → pyInt t = some b →
        processLine chromosome bits line = .ok (setSlice bits a b)) ∧
    (∀ (n : Nat) (b : Int), (n : Int) ≤ b → pyBound n b = n) ∧
    (∀ (n : Nat) (a : Int), a < 0 → pyBound n a = (a + n).toNat) ∧
    (∀ (bits : List Bool) (a b : Int),
        pyBound bits.length b ≤ pyBound bits.length a → setSlice bits a b = bits) :=
  ⟨fun bits chromosome line s t a b hfl hs ht =>
      processLine_set chromosome bits line s t a b hfl hs ht,
    pyBound_clamp, pyBound_neg, setSlice_noop⟩

/-- Witness for C7: a matching inverted range (`start = 3 > stop = 2`)
does not raise and is a no-op; clamping and negative-start
normalisation at concrete values. -/
theorem processLine_slice_semantics_witness :
    processLine "chr1" [false, false, false, false] "chr1\t3\t2" =
      .ok (setSlice [false, false, false, false] 3 2) ∧
    pyBound 4 (7 : Int) = 4 ∧
    pyBound 4 (-3 : Int) = (1 : Int).toNat ∧
    setSlice [false, false, false, false] 3 2 = [false, false, false, false] :=
  ⟨processLine_slice_semantics.1 [false, false, false, false] "chr1" "chr1\t3\t2"
      "3" "2" 3 2 (by decide) (by decide) (by decide),
   processLine_slice_semantics.2.1 4 7 (by decide),
   processLine_slice_semantics.2.2.1 4 (-3) (by decide),
   processLine_slice_semantics.2.2.2 [false, false, false, false] 3 2 (by decide)⟩

/-- C8: the spec's concrete examples — the three-line file over
`length = 10`, the empty file over `length = 5`, and the zero-width
matching line `chr1\t3\t3`, which leaves every flag unchanged. -/
theorem read_mq_map_examples :
    read_mq_map ["chr1\t0\t3", "chr2\t5\t8", "chr1\t5\t7"] "chr1" 10 =
      .ok [true, true, true, false, false, true, true, false, false, false] ∧
    read_mq_map [] "chr1" 5 = .ok [false, false, false, false, false] ∧
    ∀ bits : List Bool, processLine "chr1" bits "chr1\t3\t3" = .ok bits := by
  refine ⟨by decide, by decide, ?_⟩
  intro bits
  rw [processLine_set "chr1" bits "chr1\t3\t3" "3" "3" 3 3 (by decide) (by decide) (by decide),
    setSlice_noop bits 3 3 (le_refl _)]

/-- C9: `tabout` joins its arguments with single tab characters, in
order, rendering every absent value as the literal text `NA` and every
present value as its string form. -/
theorem tabout_joins_with_NA : ∀ args : List (Option Prim), tabout args = specTabJoin args
  | [] => rfl
  | [x] => by
    cases x <;> rfl
  | x :: y :: xs => by
    have ih := tabout_joins_with_NA (y :: xs)
    have h1 : tabout (x :: y :: xs) = pyRender x ++ "\t" ++ tabout (y :: xs) := by
      show String.intercalate "\t" (pyRender x :: pyRender y :: xs.map pyRender) = _
      rw [intercalate_cons_cons]
      rfl
    rw [h1, ih, render_eq]
    rfl

/-- C10: when directory removal fails for any reason, `RemoveDir`
terminates the whole process with a nonzero exit status rather than
returning; when removal succeeds it simply returns. -/
theorem RemoveDir_fail_fast :
    (∀ reason : String, ∃ status : Nat,
        RemoveDir (RmdirResult.osError reason) = RemoveDirOutcome.exited status ∧
        status ≠ 0) ∧
    RemoveDir RmdirResult.removed = RemoveDirOutcome.returned :=
  ⟨fun _ => ⟨1, rfl, by decide⟩, rfl⟩
